import Mathlib

/-!
Verification of the quota-aware Gemini access broker
(src/utils/gemini_utils.py of US_Market_Analyzer).

Shallow embedding conventions:
* Python float timestamps and delays are modelled as rationals.
* The JSON quota ledger maps the string str(i) to a per-key state; since
  str is injective on the indices the ledger is modelled as an association
  list keyed by the numeric index itself.
* A persisted file that is missing or unreadable/corrupt is modelled as
  the value none; a readable file as some contents.
* The MD5 hex digest used as a cache fingerprint is modelled as the
  identity map on prompt strings (a stable injective fingerprint);
  no claim depends on any other property of the hash.
* Network and randomness effects of call_gemini are supplied by an
  explicit per-iteration environment; sleeps and provider calls are
  recorded in an effect trace.
-/

namespace GeminiUtils

/-- Quota State record for one key, as persisted in quota_states.json. -/
structure KeyState where
  requests_this_minute : Nat
  last_request_time : ℚ
  total_requests_today : Nat
  last_reset_date : String
deriving DecidableEq, Repr

/-- The persisted quota ledger: mapping from key index to its state. -/
abbrev Ledger : Type := List (Nat × KeyState)

/-- QuotaShield.rpm_limit. -/
def rpm_limit : Nat := 10

/-- QuotaShield.rpd_limit. -/
def rpd_limit : Nat := 1000

/-- QuotaShield._load_states: read the persisted ledger; on a missing or
corrupt file, initialize a fresh zero state for each configured key index,
dated today. -/
def load_states (file : Option Ledger) (keys : List String) (today : String) : Ledger :=
  match file with
  | some L => L
  | none => (List.range keys.length).map (fun i => (i, ⟨0, 0, 0, today⟩))

/-- Staleness resets applied to one state inside get_available_key:
daily counter reset when the stored date differs from today, minute
counter reset when more than 60 seconds have passed since the last
request. -/
def applyResets (st : KeyState) (now : ℚ) (today : String) : KeyState :=
  let st1 := if st.last_reset_date ≠ today
    then { st with total_requests_today := 0, last_reset_date := today }
    else st
  if now - st1.last_request_time > 60
    then { st1 with requests_this_minute := 0 }
    else st1

/-- QuotaShield.get_available_key, parameterized by the shuffled index
order. Walks the indices, skips an index with no ledger entry, applies
the staleness resets, and applies the three availability checks of the
source in order; returns the key string and index of the first index
that passes. -/
def get_available_key (L : Ledger) (keys : List String) (order : List Nat)
    (now : ℚ) (today : String) : Option (String × Nat) :=
  match order with
  | [] => none
  | i :: rest =>
    match List.lookup i L with
    | none => get_available_key L keys rest now today
    | some st0 =>
      let st := applyResets st0 now today
      if st.total_requests_today ≥ rpd_limit then
        get_available_key L keys rest now today
      else if now - st.last_request_time < 6 then
        get_available_key L keys rest now today
      else if st.requests_this_minute ≥ rpm_limit then
        get_available_key L keys rest now today
      else
        some (keys.getD i "", i)

/-- The per-state update performed by record_attempt: set the last
request time, and on a 429 force the minute counter to the minute limit. -/
def update_attempt (status : Nat) (now : ℚ) (st : KeyState) : KeyState :=
  ⟨if status = 429 then rpm_limit else st.requests_this_minute,
    now, st.total_requests_today, st.last_reset_date⟩

/-- Core of QuotaShield.record_attempt on an in-memory ledger: update
key i with update_attempt; other keys and fields are untouched. -/
def record_attempt_core (L : Ledger) (i status : Nat) (now : ℚ) : Ledger :=
  L.map (fun p => if p.1 = i then (p.1, update_attempt status now p.2) else p)

/-- QuotaShield.record_attempt at the file level: reload the ledger from
disk, and only when the index is present update it and persist; when the
index is absent nothing is written. -/
def record_attempt (file : Option Ledger) (keys : List String) (i status : Nat)
    (now : ℚ) (today : String) : Option Ledger :=
  let L := load_states file keys today
  if (List.lookup i L).isSome then some (record_attempt_core L i status now) else file

/-- The per-state update performed by record_success: increment the
minute and daily counters and set the last request time. -/
def update_success (now : ℚ) (st : KeyState) : KeyState :=
  ⟨st.requests_this_minute + 1, now, st.total_requests_today + 1, st.last_reset_date⟩

/-- Core of QuotaShield.record_success on an in-memory ledger: update
key i with update_success; other keys and fields are untouched. -/
def record_success_core (L : Ledger) (i : Nat) (now : ℚ) : Ledger :=
  L.map (fun p => if p.1 = i then (p.1, update_success now p.2) else p)

/-- QuotaShield.record_success at the file level: reload from disk,
update and persist only when the index is present. -/
def record_success (file : Option Ledger) (keys : List String) (i : Nat)
    (now : ℚ) (today : String) : Option Ledger :=
  let L := load_states file keys today
  if (List.lookup i L).isSome then some (record_success_core L i now) else file

/-- Cache entry: timestamp and response, as persisted in gemini_cache.json. -/
structure CacheEntry where
  timestamp : ℚ
  response : String
deriving DecidableEq, Repr

/-- The persisted response cache: mapping from prompt fingerprint to entry. -/
abbrev Cache : Type := List (String × CacheEntry)

/-- MD5 hex fingerprint of the prompt, modelled as the identity map. -/
def md5_hex (s : String) : String := s

/-- Cache expiry window: 48 hours in seconds. -/
def cache_ttl : ℚ := 172800

/-- get_cached_response: a missing or corrupt cache file is a miss; a
present entry is served only while strictly younger than 48 hours,
otherwise it is a miss. -/
def get_cached_response (file : Option Cache) (prompt : String) (now : ℚ) : Option String :=
  match file with
  | none => none
  | some cache =>
    match List.lookup (md5_hex prompt) cache with
    | none => none
    | some entry =>
      if now - entry.timestamp < cache_ttl then some entry.response else none

/-- Python dict assignment cache[k] = v: overwrite in place when the key
exists, else append preserving insertion order. -/
def dictInsert (c : Cache) (k : String) (v : CacheEntry) : Cache :=
  if (List.lookup k c).isSome then
    c.map (fun p => if p.1 = k then (p.1, v) else p)
  else
    c ++ [(k, v)]

/-- Comparison used to order cache keys by entry timestamp. -/
def byTimestamp (a b : String × CacheEntry) : Bool :=
  decide (a.2.timestamp ≤ b.2.timestamp)

/-- The for-loop `for k in sorted_keys[:100]: cache.pop(k)`. -/
def pop_keys (c : Cache) (ks : List String) : Cache :=
  ks.foldl (fun acc k => acc.eraseP (fun p => p.1 == k)) c

/-- save_to_cache: read the cache file (corrupt or missing becomes the
empty dict), write the entry under the prompt fingerprint with the
current timestamp, and when the result holds more than 2000 entries pop
the 100 entries with the oldest timestamps before persisting. -/
def save_to_cache (file : Option Cache) (prompt response : String) (now : ℚ) : Cache :=
  let cache0 : Cache := match file with | some c => c | none => []
  let cache := dictInsert cache0 (md5_hex prompt) ⟨now, response⟩
  if cache.length > 2000 then
    let sorted_keys := (cache.mergeSort byTimestamp).map Prod.fst
    pop_keys cache (sorted_keys.take 100)
  else
    cache

/-- One retryDelay occurrence inside error.details[] of a 429 body:
either the field is absent from the detail object, or it parses to a
rational number of seconds, or float() raises on it. -/
inductive DetailField where
  | absent
  | parsed (v : ℚ)
  | malformed
deriving DecidableEq, Repr

/-- The wait-time computation of the 429 branch: starting from the 15s
default, each detail carrying a parseable retryDelay overwrites the wait
with (parsed value + 2); a malformed value aborts the scan (the
exception is swallowed) keeping the wait accumulated so far. -/
def compute_wait : ℚ → List DetailField → ℚ
  | w, [] => w
  | w, DetailField.absent :: rest => compute_wait w rest
  | _, DetailField.parsed v :: rest => compute_wait (v + 2) rest
  | w, DetailField.malformed :: _ => w

/-- Provider behavior for one attempted call. -/
inductive NetOutcome where
  | ok (text : String)
  | okBadParse
  | throttled (details : List DetailField)
  | httpError (status : Nat)
  | netFail
deriving DecidableEq, Repr

/-- Environment of one iteration of the retry loop: the shuffled key
order, the clock, the calendar date, the jitter drawn for the
no-key-available backoff, and the provider behavior if a call is made. -/
structure Step where
  order : List Nat
  now : ℚ
  today : String
  jitter : ℚ
  net : NetOutcome
deriving Repr

/-- Observable effects of a run. -/
inductive Effect where
  | netCall (keyIdx : Nat)
  | sleep (duration : ℚ)
deriving DecidableEq, Repr

/-- The two persisted files. -/
structure Sys where
  quota : Option Ledger
  cache : Option Cache
deriving DecidableEq

/-- Result of a call_gemini run: returned text, final file state, and
the effect trace. -/
structure RunResult where
  text : String
  sys : Sys
  fx : List Effect
deriving DecidableEq

/-- The exhaustion failure string returned when the retry ceiling is
reached. -/
def exhaust_msg : String := "Error: Quota Shield 2.0 failed after exhaustive rotation."

/-- The hard provider failure string for a non-200, non-429 status. -/
def http_error_msg (status : Nat) : String := "Error: " ++ Nat.repr status

/-- The retry loop of call_gemini. Fuel counts the remaining iterations
of `for retry in range(20)`; `it` indexes the environment. Each
iteration reloads the ledger from disk, asks for an available key, and
classifies the provider outcome exactly as the source does. -/
def call_loop (env : Nat → Step) (keys : List String) (prompt : String) :
    Nat → Sys → Nat → RunResult
  | 0, sys, _ => ⟨exhaust_msg, sys, []⟩
  | fuel + 1, sys, it =>
    let e := env it
    let L := load_states sys.quota keys e.today
    match get_available_key L keys e.order e.now e.today with
    | none =>
      let r := call_loop env keys prompt fuel sys (it + 1)
      ⟨r.text, r.sys, Effect.sleep (10 + e.jitter) :: r.fx⟩
    | some (_, i) =>
      match e.net with
      | NetOutcome.ok text =>
        let q := record_success sys.quota keys i e.now e.today
        let c := save_to_cache sys.cache prompt text e.now
        ⟨text, ⟨q, some c⟩, [Effect.netCall i]⟩
      | NetOutcome.okBadParse =>
        let q := record_success sys.quota keys i e.now e.today
        let r := call_loop env keys prompt fuel ⟨q, sys.cache⟩ (it + 1)
        ⟨r.text, r.sys, Effect.netCall i :: Effect.sleep 5 :: r.fx⟩
      | NetOutcome.throttled ds =>
        let q := record_attempt sys.quota keys i 429 e.now e.today
        let w := compute_wait 15 ds
        let r := call_loop env keys prompt fuel ⟨q, sys.cache⟩ (it + 1)
        ⟨r.text, r.sys, Effect.netCall i :: Effect.sleep (w / 2) :: r.fx⟩
      | NetOutcome.httpError status =>
        let q := record_attempt sys.quota keys i status e.now e.today
        ⟨http_error_msg status, ⟨q, sys.cache⟩, [Effect.netCall i]⟩
      | NetOutcome.netFail =>
        let r := call_loop env keys prompt fuel sys (it + 1)
        ⟨r.text, r.sys, Effect.sleep 5 :: r.fx⟩

/-- call_gemini: consult the cache first; Python truthiness means both a
missing entry and a cached empty string fall through to the retry loop,
which runs with fuel 20. -/
def call_gemini (env : Nat → Step) (keys : List String) (prompt : String)
    (sys : Sys) : RunResult :=
  match get_cached_response sys.cache prompt (env 0).now with
  | some t => if t = "" then call_loop env keys prompt 20 sys 0 else ⟨t, sys, []⟩
  | none => call_loop env keys prompt 20 sys 0

/-- Count of provider calls in an effect trace. -/
def netCalls (fx : List Effect) : Nat :=
  fx.countP (fun e => match e with | Effect.netCall _ => true | _ => false)

/-- An environment is well formed for a key list when every shuffled
order it produces draws from range(len(keys)), as random.shuffle does. -/
def EnvValid (keys : List String) (env : Nat → Step) : Prop :=
  ∀ n, ∀ j ∈ (env n).order, j < keys.length

/-- The key list of an association-list cache, in insertion order. -/
def cacheKeys (c : Cache) : List String := c.map Prod.fst

/-- Both persisted files missing: the state of a fresh deployment. -/
def sys_empty : Sys := ⟨none, none⟩

/-- Environment of a run whose first provider call is throttled with a
suggested retryDelay of 4 seconds and whose second call succeeds. -/
def env_c2x : Nat → Step := fun n =>
  if n = 0 then ⟨[0], 100, "d", 5, NetOutcome.throttled [DetailField.parsed 4]⟩
  else ⟨[0], 161, "d", 5, NetOutcome.ok "done"⟩

/-- Environment of a run whose first provider call is throttled with a
suggested retryDelay of 120 seconds (so the orchestrator sleeps 61s) and
whose second call, one minute later, succeeds. -/
def env_c4x : Nat → Step := fun n =>
  if n = 0 then ⟨[0], 100, "d", 5, NetOutcome.throttled [DetailField.parsed 120]⟩
  else ⟨[0], 161, "d", 5, NetOutcome.ok "hi"⟩

/-- Environment seen with an empty key pool: random.shuffle of
range(0) always yields the empty order. -/
def env_idle : Nat → Step := fun _ => ⟨[], 100, "d", 5, NetOutcome.netFail⟩

/-- Environment whose every provider call succeeds with text hello. -/
def env_ok : Nat → Step := fun _ => ⟨[0], 100, "d", 5, NetOutcome.ok "hello"⟩

/-- Environment whose every provider call succeeds with text fresh. -/
def env_c10x : Nat → Step := fun _ => ⟨[0], 100, "d", 5, NetOutcome.ok "fresh"⟩

/-- A system whose cache file holds a fresh entry for prompt p whose
cached response is the empty string. -/
def sys_c10 : Sys := ⟨none, some [("p", ⟨100, ""⟩)]⟩

/-- The j-th synthetic cache key: a string of j letters. -/
def c5_key (j : Nat) : String := String.mk (List.replicate j 'a')

/-- A cache holding exactly 2000 entries with pairwise distinct keys. -/
def c5_cache : Cache := (List.range 2000).map (fun j => (c5_key j, ⟨0, "r"⟩))

/-- A two-key ledger with distinct, nonzero counters. -/
def c9_ledger : Ledger := [(0, ⟨1, 2, 3, "x"⟩), (1, ⟨4, 5, 6, "y"⟩)]

/-- A one-entry cache created at time 100. -/
def c6_cache : Cache := [("p", ⟨100, "hi"⟩)]

/-! Helper lemmas about association-list lookup. -/

theorem lookup_append {β : Type} (k : Nat) :
    ∀ l₁ l₂ : List (Nat × β), List.lookup k (l₁ ++ l₂)
      = match List.lookup k l₁ with
        | some v => some v
        | none => List.lookup k l₂ := by
  intro l₁
  induction l₁ with
  | nil => intro l₂; simp [List.lookup]
  | cons p rest ih =>
    intro l₂
    obtain ⟨a, b⟩ := p
    cases h : k == a with
    | true => simp [List.lookup, h]
    | false => simp [List.lookup, h, ih]

theorem lookup_range_map (g : Nat → KeyState) :
    ∀ n i : Nat, List.lookup i ((List.range n).map (fun j => (j, g j)))
      = if i < n then some (g i) else none := by
  intro n
  induction n with
  | zero => intro i; simp
  | succ m ih =>
    intro i
    rw [List.range_succ, List.map_append, lookup_append, ih i]
    by_cases h : i < m
    · simp [h, Nat.lt_succ_of_lt h]
    · by_cases h2 : i = m
      · subst h2
        simp [h, List.lookup]
      · have h3 : ¬ i < m + 1 := by omega
        have h4 : (i == m) = false := by simp [h2]
        simp [h, h3, List.lookup, h4]

theorem lookup_map_if {β : Type} (f : β → β) (i : Nat) :
    ∀ (L : List (Nat × β)) (j : Nat),
      List.lookup j (L.map fun p => if p.1 = i then (p.1, f p.2) else p)
        = if j = i then Option.map f (List.lookup j L) else List.lookup j L := by
  intro L
  induction L with
  | nil => intro j; simp [List.lookup]
  | cons p rest ih =>
    intro j
    obtain ⟨a, b⟩ := p
    rw [List.map_cons]
    by_cases ha : a = i
    · have hhead : (if (a, b).1 = i then ((a, b).1, f (a, b).2) else (a, b)) = (a, f b) := by
        simp [ha]
      rw [hhead]
      by_cases hj : j = a
      · subst hj
        simp [List.lookup, ha]
      · have hb : (j == a) = false := by simp [hj]
        simp [List.lookup, hb, ih, hj]
    · have hhead : (if (a, b).1 = i then ((a, b).1, f (a, b).2) else (a, b)) = (a, b) := by
        simp [ha]
      rw [hhead]
      by_cases hj : j = a
      · subst hj
        have hji : ¬ j = i := ha
        simp [List.lookup, hji]
      · have hb : (j == a) = false := by simp [hj]
        simp [List.lookup, hb, ih]

/-! Helper lemmas about the staleness resets. -/

theorem load_states_some (L : Ledger) (keys : List String) (today : String) :
    load_states (some L) keys today = L := rfl

theorem applyResets_last_request_time (st : KeyState) (now : ℚ) (today : String) :
    (applyResets st now today).last_request_time = st.last_request_time := by
  unfold applyResets
  by_cases h1 : st.last_reset_date ≠ today <;>
    by_cases h2 : now - st.last_request_time > 60 <;> simp [h1, h2]

theorem applyResets_minute (st : KeyState) (now : ℚ) (today : String) :
    (applyResets st now today).requests_this_minute
      = if now - st.last_request_time > 60 then 0 else st.requests_this_minute := by
  unfold applyResets
  by_cases h1 : st.last_reset_date ≠ today <;>
    by_cases h2 : now - st.last_request_time > 60 <;> simp [h1, h2]

/-- Selection postcondition: any returned index has a ledger entry that,
after the staleness resets, is strictly under the daily limit, at least
6 seconds past its last request, and strictly under the minute limit. -/
theorem get_available_key_spec :
    ∀ (order : List Nat) (L : Ledger) (keys : List String) (now : ℚ)
      (today k : String) (i : Nat),
      get_available_key L keys order now today = some (k, i) →
      ∃ st, List.lookup i L = some st ∧
        (applyResets st now today).total_requests_today < rpd_limit ∧
        ¬ now - (applyResets st now today).last_request_time < 6 ∧
        (applyResets st now today).requests_this_minute < rpm_limit := by
  intro order
  induction order with
  | nil => intro L keys now today k i h; simp [get_available_key] at h
  | cons j rest ih =>
    intro L keys now today k i h
    rw [get_available_key] at h
    cases hl : List.lookup j L with
    | none =>
      rw [hl] at h
      exact ih L keys now today k i h
    | some st0 =>
      rw [hl] at h
      simp only at h
      by_cases h1 : (applyResets st0 now today).total_requests_today ≥ rpd_limit
      · rw [if_pos h1] at h
        exact ih L keys now today k i h
      · rw [if_neg h1] at h
        by_cases h2 : now - (applyResets st0 now today).last_request_time < 6
        · rw [if_pos h2] at h
          exact ih L keys now today k i h
        · rw [if_neg h2] at h
          by_cases h3 : (applyResets st0 now today).requests_this_minute ≥ rpm_limit
          · rw [if_pos h3] at h
            exact ih L keys now today k i h
          · rw [if_neg h3] at h
            simp only [Option.some.injEq, Prod.mk.injEq] at h
            obtain ⟨hk, hi⟩ := h
            subst hi
            exact ⟨st0, hl, by omega, h2, by omega⟩

/-- Claim C3: immediately after recordAttempt(i, 429) at time t, and for
as long as at most 60 seconds have elapsed, selectAvailableKey never
returns key i (for any shuffle order, any calendar dates and any prior
ledger file), because the forced minute counter stays at the minute
limit until the staleness window passes. -/
theorem c3_key_blocked_after_429
    (file : Option Ledger) (keys : List String) (i : Nat) (t tq : ℚ)
    (order : List Nat) (today1 today2 : String) (k : String)
    (_h1 : t < tq) (h2 : tq - t ≤ 60) :
    get_available_key (load_states (record_attempt file keys i 429 t today1) keys today2)
      keys order tq today2 ≠ some (k, i) := by
  intro hsel
  obtain ⟨st, hst, _, _, hmin⟩ :=
    get_available_key_spec order _ keys tq today2 k i hsel
  rw [applyResets_minute] at hmin
  unfold record_attempt at hst
  simp only at hst
  by_cases hp : (List.lookup i (load_states file keys today1)).isSome
  · rw [if_pos hp] at hst
    rw [load_states_some] at hst
    unfold record_attempt_core at hst
    rw [lookup_map_if, if_pos rfl] at hst
    obtain ⟨st0, hst0⟩ := Option.isSome_iff_exists.mp hp
    rw [hst0] at hst
    simp only [Option.map_some'] at hst
    have hstv := Option.some.inj hst
    rw [← hstv] at hmin
    simp [update_attempt] at hmin
    by_cases h60 : tq - t > 60
    · have : tq - t ≤ 60 := h2
      linarith
    · rw [if_neg h60] at hmin
      exact absurd hmin (lt_irrefl _)
  · rw [if_neg hp] at hst
    cases file with
    | some L0 =>
      simp only [load_states] at hst hp
      exact hp (by rw [hst]; rfl)
    | none =>
      simp only [load_states] at hst hp
      rw [lookup_range_map] at hst hp
      by_cases hi : i < keys.length
      · rw [if_pos hi] at hp
        exact hp rfl
      · rw [if_neg hi] at hst
        exact Option.noConfusion hst

unseal Rat.add Rat.sub Rat.mul Rat.inv in
theorem c3_witness :
    (100 : ℚ) < 130 ∧ (130 : ℚ) - 100 ≤ 60 ∧
    get_available_key (load_states (record_attempt none ["k"] 0 429 100 "d1") ["k"] "d2")
      ["k"] [0] 130 "d2" ≠ some ("k", 0) :=
  ⟨by decide, by decide,
    c3_key_blocked_after_429 none ["k"] 0 100 130 [0] "d1" "d2" "k" (by decide) (by decide)⟩

/-- Claim C4 (amended): selectAvailableKey never returns an index whose
post-reset total_requests_today is at or above the daily limit, whose
post-reset requests_this_minute is at or above the minute limit, or that
was used less than 6 seconds ago; the further consequence claimed for
the stored counters fails, because the staleness resets are applied only
in memory while recordSuccess reloads the unreset persisted counters. -/
theorem c4_amended_select_guard
    (order : List Nat) (L : Ledger) (keys : List String) (now : ℚ)
    (today k : String) (i : Nat)
    (h : get_available_key L keys order now today = some (k, i)) :
    ∃ st, List.lookup i L = some st ∧
      (applyResets st now today).total_requests_today < rpd_limit ∧
      ¬ now - (applyResets st now today).last_request_time < 6 ∧
      (applyResets st now today).requests_this_minute < rpm_limit :=
  get_available_key_spec order L keys now today k i h

unseal Rat.add Rat.sub Rat.mul Rat.inv in
theorem c4_witness :
    get_available_key [(0, ⟨0, 0, 0, "d"⟩)] ["k"] [0] 100 "d" = some ("k", 0) ∧
    ∃ st, List.lookup 0 ([(0, ⟨0, 0, 0, "d"⟩)] : Ledger) = some st ∧
      (applyResets st 100 "d").total_requests_today < rpd_limit ∧
      ¬ (100 : ℚ) - (applyResets st 100 "d").last_request_time < 6 ∧
      (applyResets st 100 "d").requests_this_minute < rpm_limit :=
  ⟨by decide,
    c4_amended_select_guard [0] [(0, ⟨0, 0, 0, "d"⟩)] ["k"] 100 "d" "k" 0 (by decide)⟩

unseal Rat.add Rat.sub Rat.mul Rat.inv in
/-- Claim C4, counterexample: a sequential well-behaved caller (the
orchestrator itself) starts from the fresh state, suffers one 429 at
time 100 (the minute counter is forced to 10), retries the same key 61
seconds later after the suggested wait, and on success the persisted
minute counter becomes 11, exceeding the limit of 10. -/
theorem c4_counterexample :
    (call_gemini env_c4x ["k"] "p" sys_empty).text = "hi" ∧
    (call_gemini env_c4x ["k"] "p" sys_empty).sys.quota
      = some [(0, ⟨11, 161, 1, "d"⟩)] ∧
    rpm_limit < 11 := by decide

/-- Claim C7: loading the ledger with missing or corrupt persisted
storage yields a state with exactly one record per configured key index,
each holding zero counters, zero last_request_time, and last_reset_date
equal to today; no error escapes. -/
theorem c7_fresh_ledger_on_missing (keys : List String) (today : String) (i : Nat) :
    ((load_states none keys today).length = keys.length) ∧
    (i < keys.length →
      List.lookup i (load_states none keys today) = some ⟨0, 0, 0, today⟩) ∧
    (¬ i < keys.length → List.lookup i (load_states none keys today) = none) := by
  refine ⟨by simp [load_states], ?_, ?_⟩
  · intro h
    unfold load_states
    rw [lookup_range_map, if_pos h]
  · intro h
    unfold load_states
    rw [lookup_range_map, if_neg h]

theorem c7_witness :
    (load_states none ["a", "b"] "t").length = ["a", "b"].length ∧
    List.lookup 1 (load_states none ["a", "b"] "t") = some ⟨0, 0, 0, "t"⟩ ∧
    List.lookup 5 (load_states none ["a", "b"] "t") = none :=
  ⟨(c7_fresh_ledger_on_missing ["a", "b"] "t" 1).1,
    (c7_fresh_ledger_on_missing ["a", "b"] "t" 1).2.1 (by decide),
    (c7_fresh_ledger_on_missing ["a", "b"] "t" 5).2.2 (by decide)⟩

/-- Claim C9: recordAttempt(i, 429) persists an update that touches only
last_request_time and requests_this_minute of key i; its daily counter
and reset date are carried over unchanged, and every other key maps to
its previous state. -/
theorem c9_record_attempt_frame
    (file : Option Ledger) (keys : List String) (i : Nat) (now : ℚ) (today : String) :
    (∀ st, List.lookup i (load_states file keys today) = some st →
      record_attempt file keys i 429 now today
        = some (record_attempt_core (load_states file keys today) i 429 now)) ∧
    (∀ j, j ≠ i →
      List.lookup j (record_attempt_core (load_states file keys today) i 429 now)
        = List.lookup j (load_states file keys today)) ∧
    (∀ st, List.lookup i (load_states file keys today) = some st →
      List.lookup i (record_attempt_core (load_states file keys today) i 429 now)
        = some ⟨rpm_limit, now, st.total_requests_today, st.last_reset_date⟩) := by
  refine ⟨?_, ?_, ?_⟩
  · intro st h
    unfold record_attempt
    simp only
    rw [if_pos (by rw [h]; rfl)]
  · intro j hj
    unfold record_attempt_core
    rw [lookup_map_if, if_neg hj]
  · intro st h
    unfold record_attempt_core
    rw [lookup_map_if, if_pos rfl, h]
    simp [update_attempt]

theorem c9_witness :
    record_attempt (some c9_ledger) ["a", "b"] 0 429 50 "x"
      = some (record_attempt_core c9_ledger 0 429 50) ∧
    List.lookup 1 (record_attempt_core c9_ledger 0 429 50) = List.lookup 1 c9_ledger ∧
    List.lookup 0 (record_attempt_core c9_ledger 0 429 50)
      = some ⟨rpm_limit, 50, 3, "x"⟩ :=
  ⟨(c9_record_attempt_frame (some c9_ledger) ["a", "b"] 0 50 "x").1 ⟨1, 2, 3, "x"⟩ (by decide),
    (c9_record_attempt_frame (some c9_ledger) ["a", "b"] 0 50 "x").2.1 1 (by decide),
    (c9_record_attempt_frame (some c9_ledger) ["a", "b"] 0 50 "x").2.2 ⟨1, 2, 3, "x"⟩ (by decide)⟩

/-- Claim C6: lookup returns the cached response exactly when an entry
for the fingerprint is present with age strictly below 48 hours; an
entry aged 48 hours or more is a miss even though present, and missing
or corrupt storage is a miss, never an error. -/
theorem c6_cache_lookup_expiry (c : Cache) (prompt : String) (now : ℚ) :
    (get_cached_response none prompt now = none) ∧
    (List.lookup (md5_hex prompt) c = none →
      get_cached_response (some c) prompt now = none) ∧
    (∀ e, List.lookup (md5_hex prompt) c = some e → now - e.timestamp < cache_ttl →
      get_cached_response (some c) prompt now = some e.response) ∧
    (∀ e, List.lookup (md5_hex prompt) c = some e → ¬ now - e.timestamp < cache_ttl →
      get_cached_response (some c) prompt now = none) := by
  refine ⟨rfl, ?_, ?_, ?_⟩
  · intro h
    simp [get_cached_response, h]
  · intro e he hfresh
    simp [get_cached_response, he, hfresh]
  · intro e he hstale
    simp [get_cached_response, he, hstale]

unseal Rat.add Rat.sub Rat.mul Rat.inv in
theorem c6_witness :
    get_cached_response (some c6_cache) "p" 200 = some "hi" ∧
    get_cached_response (some c6_cache) "p" 172900 = none :=
  ⟨(c6_cache_lookup_expiry c6_cache "p" 200).2.2.1 ⟨100, "hi"⟩ (by decide) (by decide),
    (c6_cache_lookup_expiry c6_cache "p" 172900).2.2.2 ⟨100, "hi"⟩ (by decide) (by decide)⟩

/-! Helper lemmas about the effect trace. -/

theorem netCalls_nil : netCalls [] = 0 := rfl

theorem netCalls_cons_sleep (d : ℚ) (fx : List Effect) :
    netCalls (Effect.sleep d :: fx) = netCalls fx := by
  simp [netCalls, List.countP_cons]

theorem netCalls_cons_call (i : Nat) (fx : List Effect) :
    netCalls (Effect.netCall i :: fx) = netCalls fx + 1 := by
  simp [netCalls, List.countP_cons]

theorem get_available_key_nil_order (L : Ledger) (keys : List String)
    (now : ℚ) (today : String) :
    get_available_key L keys [] now today = none := rfl

/-- Unfolding of call_gemini on a non-empty cache hit. -/
theorem call_gemini_hit (env : Nat → Step) (keys : List String) (prompt : String)
    (sys : Sys) (t : String)
    (hc : get_cached_response sys.cache prompt (env 0).now = some t) (ht : t ≠ "") :
    call_gemini env keys prompt sys = ⟨t, sys, []⟩ := by
  unfold call_gemini
  rw [hc]
  simp [ht]

/-- Unfolding of call_gemini when the cache holds the empty string. -/
theorem call_gemini_miss_empty (env : Nat → Step) (keys : List String) (prompt : String)
    (sys : Sys)
    (hc : get_cached_response sys.cache prompt (env 0).now = some "") :
    call_gemini env keys prompt sys = call_loop env keys prompt 20 sys 0 := by
  unfold call_gemini
  rw [hc]
  simp

/-- Unfolding of call_gemini on a cache miss. -/
theorem call_gemini_miss_none (env : Nat → Step) (keys : List String) (prompt : String)
    (sys : Sys)
    (hc : get_cached_response sys.cache prompt (env 0).now = none) :
    call_gemini env keys prompt sys = call_loop env keys prompt 20 sys 0 := by
  unfold call_gemini
  rw [hc]

/-- With an empty key pool the retry loop makes no provider call, leaves
both files untouched and, once the fuel runs out, reports exhaustion. -/
theorem call_loop_no_keys (env : Nat → Step) (prompt : String)
    (henv : EnvValid [] env) :
    ∀ (fuel it : Nat) (sys : Sys),
      (call_loop env [] prompt fuel sys it).text = exhaust_msg ∧
      (call_loop env [] prompt fuel sys it).sys = sys ∧
      netCalls (call_loop env [] prompt fuel sys it).fx = 0 := by
  intro fuel
  induction fuel with
  | zero => intro it sys; exact ⟨rfl, rfl, rfl⟩
  | succ m ih =>
    intro it sys
    have horder : (env it).order = [] := by
      cases h : (env it).order with
      | nil => rfl
      | cons a l =>
        have hh := henv it a (by rw [h]; exact List.mem_cons_self a l)
        simp at hh
    rw [call_loop]
    rw [horder, get_available_key_nil_order]
    obtain ⟨h1, h2, h3⟩ := ih (it + 1) sys
    exact ⟨h1, h2, by rw [netCalls_cons_sleep]; exact h3⟩

/-- Claim C1: with zero configured keys, a cache-missing call to
call_gemini returns the configuration-failure value (the exhaustion
string), touches neither persisted file, and never attempts a network
call in any of its iterations: the unavailability is permanent. -/
theorem c1_zero_keys_config_failure (env : Nat → Step) (prompt : String) (sys : Sys)
    (henv : EnvValid [] env)
    (hmiss : get_cached_response sys.cache prompt (env 0).now = none) :
    (call_gemini env [] prompt sys).text = exhaust_msg ∧
    (call_gemini env [] prompt sys).sys = sys ∧
    netCalls (call_gemini env [] prompt sys).fx = 0 := by
  rw [call_gemini_miss_none env [] prompt sys hmiss]
  exact call_loop_no_keys env prompt henv 20 0 sys

theorem c1_witness :
    (call_gemini env_idle [] "p" sys_empty).text = exhaust_msg ∧
    (call_gemini env_idle [] "p" sys_empty).sys = sys_empty ∧
    netCalls (call_gemini env_idle [] "p" sys_empty).fx = 0 :=
  c1_zero_keys_config_failure env_idle "p" sys_empty
    (fun _ j hj => absurd hj (List.not_mem_nil j)) rfl

/-- Every run of the retry loop makes at most fuel provider calls and
returns either the exhaustion string, a success text supplied by the
provider, or the hard-failure string of a status the provider returned. -/
theorem call_loop_spec (env : Nat → Step) (keys : List String) (prompt : String) :
    ∀ (fuel it : Nat) (sys : Sys),
      netCalls (call_loop env keys prompt fuel sys it).fx ≤ fuel ∧
      ((call_loop env keys prompt fuel sys it).text = exhaust_msg ∨
        (∃ n t, (env n).net = NetOutcome.ok t ∧
          (call_loop env keys prompt fuel sys it).text = t) ∨
        (∃ n s, (env n).net = NetOutcome.httpError s ∧
          (call_loop env keys prompt fuel sys it).text = http_error_msg s)) := by
  intro fuel
  induction fuel with
  | zero => intro it sys; exact ⟨Nat.le_refl 0, Or.inl rfl⟩
  | succ m ih =>
    intro it sys
    rw [call_loop]
    cases hsel : get_available_key (load_states sys.quota keys (env it).today) keys
        (env it).order (env it).now (env it).today with
    | none =>
      simp only
      obtain ⟨hc, ho⟩ := ih (it + 1) sys
      refine ⟨by rw [netCalls_cons_sleep]; omega, ho⟩
    | some ki =>
      obtain ⟨key, i⟩ := ki
      simp only
      cases hnet : (env it).net with
      | ok t =>
        refine ⟨by rw [netCalls_cons_call, netCalls_nil]; omega,
          Or.inr (Or.inl ⟨it, t, hnet, rfl⟩)⟩
      | okBadParse =>
        obtain ⟨hc, ho⟩ := ih (it + 1)
          ⟨record_success sys.quota keys i (env it).now (env it).today, sys.cache⟩
        refine ⟨by rw [netCalls_cons_call, netCalls_cons_sleep]; omega, ho⟩
      | throttled ds =>
        obtain ⟨hc, ho⟩ := ih (it + 1)
          ⟨record_attempt sys.quota keys i 429 (env it).now (env it).today, sys.cache⟩
        refine ⟨by rw [netCalls_cons_call, netCalls_cons_sleep]; omega, ho⟩
      | httpError s =>
        refine ⟨by rw [netCalls_cons_call, netCalls_nil]; omega,
          Or.inr (Or.inr ⟨it, s, hnet, rfl⟩)⟩
      | netFail =>
        obtain ⟨hc, ho⟩ := ih (it + 1) sys
        refine ⟨by rw [netCalls_cons_sleep]; omega, ho⟩

set_option maxRecDepth 40000 in
/-- Claim C8: call_gemini is total in the embedding (a fuel-bounded
loop mirroring range(20)); every run makes at most 20 provider calls and
returns one of the typed values: a cached text, a provider success text,
a hard-failure string, or the exhaustion string, the latter distinct
from every hard-failure string for a status below 1000. -/
theorem c8_generate_total_bounded (env : Nat → Step) (keys : List String)
    (prompt : String) (sys : Sys) :
    netCalls (call_gemini env keys prompt sys).fx ≤ 20 ∧
    ((∃ t, get_cached_response sys.cache prompt (env 0).now = some t ∧
        (call_gemini env keys prompt sys).text = t) ∨
      (call_gemini env keys prompt sys).text = exhaust_msg ∨
      (∃ n t, (env n).net = NetOutcome.ok t ∧ (call_gemini env keys prompt sys).text = t) ∨
      (∃ n s, (env n).net = NetOutcome.httpError s ∧
        (call_gemini env keys prompt sys).text = http_error_msg s)) ∧
    (∀ s, s < 1000 → http_error_msg s ≠ exhaust_msg) := by
  have hmain : netCalls (call_gemini env keys prompt sys).fx ≤ 20 ∧
      ((∃ t, get_cached_response sys.cache prompt (env 0).now = some t ∧
          (call_gemini env keys prompt sys).text = t) ∨
        (call_gemini env keys prompt sys).text = exhaust_msg ∨
        (∃ n t, (env n).net = NetOutcome.ok t ∧ (call_gemini env keys prompt sys).text = t) ∨
        (∃ n s, (env n).net = NetOutcome.httpError s ∧
          (call_gemini env keys prompt sys).text = http_error_msg s)) := by
    cases hc : get_cached_response sys.cache prompt (env 0).now with
    | none =>
      rw [call_gemini_miss_none env keys prompt sys hc]
      refine ⟨(call_loop_spec env keys prompt 20 0 sys).1, ?_⟩
      rcases (call_loop_spec env keys prompt 20 0 sys).2 with h | h | h
      · exact Or.inr (Or.inl h)
      · exact Or.inr (Or.inr (Or.inl h))
      · exact Or.inr (Or.inr (Or.inr h))
    | some t =>
      by_cases ht : t = ""
      · subst ht
        rw [call_gemini_miss_empty env keys prompt sys hc]
        refine ⟨(call_loop_spec env keys prompt 20 0 sys).1, ?_⟩
        rcases (call_loop_spec env keys prompt 20 0 sys).2 with h | h | h
        · exact Or.inr (Or.inl h)
        · exact Or.inr (Or.inr (Or.inl h))
        · exact Or.inr (Or.inr (Or.inr h))
      · rw [call_gemini_hit env keys prompt sys t hc ht]
        exact ⟨by simp [netCalls], Or.inl ⟨t, rfl, rfl⟩⟩
  exact ⟨hmain.1, hmain.2, by decide⟩

unseal Rat.add Rat.sub Rat.mul Rat.inv in
theorem c8_witness :
    netCalls (call_gemini env_ok ["k"] "p" sys_empty).fx ≤ 20 ∧
    404 < 1000 ∧ http_error_msg 404 ≠ exhaust_msg :=
  ⟨(c8_generate_total_bounded env_ok ["k"] "p" sys_empty).1, by decide,
    (c8_generate_total_bounded env_ok ["k"] "p" sys_empty).2.2 404 (by decide)⟩

/-- Claim C2 (amended): on a 429 with a selected key, the orchestrator
records the attempt, sleeps for half of the computed wait time and
continues the loop with the same prompt; the computed wait is 15 seconds
when no retryDelay is present, and (parsed value + 2) seconds when the
body carries retryDelay — two seconds more than the provider-suggested
delay the claim describes. -/
theorem c2_amended_throttle_wait (env : Nat → Step) (keys : List String)
    (prompt : String) (sys : Sys) (fuel it i : Nat) (s : String)
    (ds : List DetailField)
    (hsel : get_available_key (load_states sys.quota keys (env it).today) keys
      (env it).order (env it).now (env it).today = some (s, i))
    (hnet : (env it).net = NetOutcome.throttled ds) :
    call_loop env keys prompt (fuel + 1) sys it =
      ⟨(call_loop env keys prompt fuel
          ⟨record_attempt sys.quota keys i 429 (env it).now (env it).today, sys.cache⟩
          (it + 1)).text,
        (call_loop env keys prompt fuel
          ⟨record_attempt sys.quota keys i 429 (env it).now (env it).today, sys.cache⟩
          (it + 1)).sys,
        Effect.netCall i :: Effect.sleep (compute_wait 15 ds / 2) ::
          (call_loop env keys prompt fuel
            ⟨record_attempt sys.quota keys i 429 (env it).now (env it).today, sys.cache⟩
            (it + 1)).fx⟩ ∧
    compute_wait 15 [] = 15 ∧
    (∀ v : ℚ, compute_wait 15 [DetailField.parsed v] = v + 2) := by
  refine ⟨?_, rfl, fun v => rfl⟩
  rw [call_loop, hsel]
  simp only [hnet]

unseal Rat.add Rat.sub Rat.mul Rat.inv in
/-- Claim C2, counterexample: the provider suggests a 4 second retry
delay; the claim demands a sleep of 4 / 2 = 2 seconds, but the code
sleeps (4 + 2) / 2 = 3 seconds before continuing with the same prompt. -/
theorem c2_counterexample :
    (call_gemini env_c2x ["k"] "p" sys_empty).fx
      = [Effect.netCall 0, Effect.sleep 3, Effect.netCall 0] ∧
    (call_gemini env_c2x ["k"] "p" sys_empty).text = "done" ∧
    (3 : ℚ) ≠ 4 / 2 := by decide

unseal Rat.add Rat.sub Rat.mul Rat.inv in
theorem c2_witness :
    call_loop env_c2x ["k"] "p" (19 + 1) sys_empty 0 =
      ⟨(call_loop env_c2x ["k"] "p" 19
          ⟨record_attempt sys_empty.quota ["k"] 0 429 (env_c2x 0).now (env_c2x 0).today,
            sys_empty.cache⟩ (0 + 1)).text,
        (call_loop env_c2x ["k"] "p" 19
          ⟨record_attempt sys_empty.quota ["k"] 0 429 (env_c2x 0).now (env_c2x 0).today,
            sys_empty.cache⟩ (0 + 1)).sys,
        Effect.netCall 0 :: Effect.sleep (compute_wait 15 [DetailField.parsed 4] / 2) ::
          (call_loop env_c2x ["k"] "p" 19
            ⟨record_attempt sys_empty.quota ["k"] 0 429 (env_c2x 0).now (env_c2x 0).today,
              sys_empty.cache⟩ (0 + 1)).fx⟩ ∧
    compute_wait 15 [] = 15 ∧
    compute_wait 15 [DetailField.parsed 4] = 4 + 2 := by
  have h := c2_amended_throttle_wait env_c2x ["k"] "p" sys_empty 19 0 0 "k"
    [DetailField.parsed 4] (by decide) (by decide)
  exact ⟨h.1, h.2.1, h.2.2 4⟩

/-- Claim C10: a fresh cached entry whose stored response is the empty
string is treated as a miss (Python truthiness), so call_gemini runs the
full retry loop; the cache fast path is taken exactly when the cached
text is non-empty. -/
theorem c10_empty_cached_is_miss (env : Nat → Step) (keys : List String)
    (prompt : String) (sys : Sys) :
    (get_cached_response sys.cache prompt (env 0).now = some "" →
      call_gemini env keys prompt sys = call_loop env keys prompt 20 sys 0) ∧
    (∀ t, get_cached_response sys.cache prompt (env 0).now = some t → t ≠ "" →
      call_gemini env keys prompt sys = ⟨t, sys, []⟩) := by
  constructor
  · intro h
    exact call_gemini_miss_empty env keys prompt sys h
  · intro t h hne
    exact call_gemini_hit env keys prompt sys t h hne

unseal Rat.add Rat.sub Rat.mul Rat.inv in
theorem c10_witness :
    get_cached_response sys_c10.cache "p" (env_c10x 0).now = some "" ∧
    call_gemini env_c10x ["k"] "p" sys_c10 = call_loop env_c10x ["k"] "p" 20 sys_c10 0 ∧
    (call_gemini env_c10x ["k"] "p" sys_c10).text = "fresh" :=
  ⟨by decide,
    (c10_empty_cached_is_miss env_c10x ["k"] "p" sys_c10).1 (by decide),
    by decide⟩

/-! Helper lemmas for the cache eviction policy. -/

theorem contains_iff_mem (ks : List String) (a : String) :
    ks.contains a = true ↔ a ∈ ks := List.elem_iff

theorem lookup_isSome_iff (k : String) :
    ∀ c : Cache, (List.lookup k c).isSome = true ↔ k ∈ cacheKeys c := by
  intro c
  induction c with
  | nil => simp [List.lookup, cacheKeys]
  | cons p rest ih =>
    obtain ⟨a, e⟩ := p
    by_cases hk : k = a
    · subst hk
      simp [List.lookup, cacheKeys]
    · have hb : (k == a) = false := by simp [hk]
      simp only [List.lookup, hb, cacheKeys, List.map_cons, List.mem_cons]
      rw [cacheKeys] at ih
      rw [ih]
      constructor
      · exact Or.inr
      · rintro (h1 | h1)
        · exact absurd h1 hk
        · exact h1

theorem eraseP_eq_filter_of_nodup :
    ∀ (c : Cache) (k : String), (cacheKeys c).Nodup →
      c.eraseP (fun p => p.1 == k) = c.filter (fun p => p.1 != k) := by
  intro c
  induction c with
  | nil => intro k _; rfl
  | cons p rest ih =>
    intro k h
    obtain ⟨a, e⟩ := p
    rw [cacheKeys, List.map_cons, List.nodup_cons] at h
    obtain ⟨ha, hrest⟩ := h
    by_cases hk : a = k
    · subst hk
      rw [List.eraseP_cons_of_pos (by simp)]
      rw [List.filter_cons_of_neg (by simp)]
      symm
      rw [List.filter_eq_self]
      intro q hq
      have hne : q.1 ≠ a := by
        intro hqa
        exact ha (List.mem_map.mpr ⟨q, hq, hqa⟩)
      simp [hne]
    · rw [List.eraseP_cons_of_neg (by simp [hk])]
      rw [List.filter_cons_of_pos (by simp [hk])]
      rw [ih k hrest]

theorem pop_keys_eq_filter :
    ∀ (ks : List String) (c : Cache), (cacheKeys c).Nodup →
      pop_keys c ks = c.filter (fun p => !(ks.contains p.1)) := by
  intro ks
  induction ks with
  | nil =>
    intro c _
    rw [List.filter_eq_self.mpr (by intro a _; rfl)]
    rfl
  | cons k ks ih =>
    intro c h
    have h1 : pop_keys c (k :: ks) = pop_keys (c.eraseP (fun p => p.1 == k)) ks := rfl
    have hnd : (cacheKeys (c.filter (fun p => p.1 != k))).Nodup :=
      ((List.filter_sublist c).map Prod.fst).nodup h
    rw [h1, eraseP_eq_filter_of_nodup c k h, ih (c.filter (fun p => p.1 != k)) hnd]
    rw [List.filter_filter]
    apply List.filter_congr
    intro p _
    rw [List.contains_cons, Bool.not_or]
    rw [Bool.and_comm]
    rfl

theorem length_filter_not_contains (c : Cache) (ks : List String)
    (hks : ks.Nodup) (hc : (cacheKeys c).Nodup)
    (hsub : ∀ k ∈ ks, k ∈ cacheKeys c) :
    (c.filter (fun p => !(ks.contains p.1))).length = c.length - ks.length := by
  have hsplit : c.length = c.countP (fun p => ks.contains p.1)
      + c.countP (fun p => !(ks.contains p.1)) := by
    rw [List.length_eq_countP_add_countP (p := fun p : String × CacheEntry => ks.contains p.1)]
    congr 1
    apply List.countP_congr
    intro a _
    by_cases h : ks.contains a.1 = true <;> simp [h]
  have hfilter : (c.filter (fun p => !(ks.contains p.1))).length
      = c.countP (fun p => !(ks.contains p.1)) :=
    (List.countP_eq_length_filter _ _).symm
  have hcount : c.countP (fun p => ks.contains p.1) = ks.length := by
    have h1 : c.countP (fun p => ks.contains p.1)
        = (cacheKeys c).countP (fun x => ks.contains x) := by
      rw [cacheKeys, List.countP_map]
      rfl
    rw [h1, List.countP_eq_length_filter]
    have hperm : List.Perm ((cacheKeys c).filter (fun x => ks.contains x)) ks := by
      apply (List.perm_ext_iff_of_nodup ((List.filter_sublist _).nodup hc) hks).mpr
      intro a
      constructor
      · intro hmem
        rw [List.mem_filter] at hmem
        exact (contains_iff_mem ks a).mp hmem.2
      · intro hmem
        exact List.mem_filter.mpr ⟨hsub a hmem, (contains_iff_mem ks a).mpr hmem⟩
    exact hperm.length_eq
  rw [hfilter]
  omega

theorem dictInsert_length (c : Cache) (k : String) (v : CacheEntry) :
    (dictInsert c k v).length
      = if (List.lookup k c).isSome then c.length else c.length + 1 := by
  unfold dictInsert
  split <;> simp

theorem dictInsert_keys_nodup (c : Cache) (k : String) (v : CacheEntry)
    (h : (cacheKeys c).Nodup) : (cacheKeys (dictInsert c k v)).Nodup := by
  unfold dictInsert
  split
  case isTrue hs =>
    have hkeys : cacheKeys (c.map (fun p => if p.1 = k then (p.1, v) else p))
        = cacheKeys c := by
      rw [cacheKeys, cacheKeys, List.map_map]
      apply List.map_congr_left
      intro p _
      by_cases hp : p.1 = k <;> simp [hp]
    rw [hkeys]
    exact h
  case isFalse hs =>
    have hkeys : cacheKeys (c ++ [(k, v)]) = cacheKeys c ++ [k] := by
      simp [cacheKeys]
    rw [hkeys, List.nodup_append]
    refine ⟨h, by simp, ?_⟩
    intro a ha hb
    rw [List.mem_singleton] at hb
    subst hb
    exact hs ((lookup_isSome_iff a c).mpr ha)

theorem byTimestamp_trans : ∀ (a b c : String × CacheEntry),
    byTimestamp a b → byTimestamp b c → byTimestamp a c := by
  intro a b c hab hbc
  simp only [byTimestamp, decide_eq_true_eq] at *
  exact le_trans hab hbc

theorem byTimestamp_total : ∀ (a b : String × CacheEntry),
    byTimestamp a b || byTimestamp b a := by
  intro a b
  simp only [byTimestamp, Bool.or_eq_true, decide_eq_true_eq]
  exact le_total _ _

/-- Entries whose key falls in the first 100 of the timestamp-sorted key
list are at least as old as every entry whose key does not. -/
theorem mergeSort_take_oldest (c1 : Cache) (h : (cacheKeys c1).Nodup)
    (q s : String × CacheEntry) (hq1 : q ∈ c1)
    (hqv : q.1 ∈ ((c1.mergeSort byTimestamp).map Prod.fst).take 100)
    (hs1 : s ∈ c1)
    (hsv : s.1 ∉ ((c1.mergeSort byTimestamp).map Prod.fst).take 100) :
    q.2.timestamp ≤ s.2.timestamp := by
  have hperm : List.Perm (c1.mergeSort byTimestamp) c1 := List.mergeSort_perm c1 byTimestamp
  have hnodS : ((c1.mergeSort byTimestamp).map Prod.fst).Nodup :=
    ((hperm.map Prod.fst).nodup_iff).mpr h
  have hsplitS : (c1.mergeSort byTimestamp).take 100 ++ (c1.mergeSort byTimestamp).drop 100
      = c1.mergeSort byTimestamp := List.take_append_drop 100 _
  rw [← List.map_take] at hqv hsv
  obtain ⟨u, hu, hukey⟩ := List.mem_map.mp hqv
  have huS : u ∈ c1.mergeSort byTimestamp := (List.take_sublist 100 _).subset hu
  have hqS : q ∈ c1.mergeSort byTimestamp := (hperm.mem_iff).mpr hq1
  have hqu : u = q := List.inj_on_of_nodup_map hnodS huS hqS hukey
  have hqtake : q ∈ (c1.mergeSort byTimestamp).take 100 := hqu ▸ hu
  have hsS : s ∈ c1.mergeSort byTimestamp := (hperm.mem_iff).mpr hs1
  have hsS2 : s ∈ (c1.mergeSort byTimestamp).take 100
      ++ (c1.mergeSort byTimestamp).drop 100 := by
    rw [hsplitS]
    exact hsS
  have hsdrop : s ∈ (c1.mergeSort byTimestamp).drop 100 := by
    rcases List.mem_append.mp hsS2 with h1 | h1
    · exact absurd (List.mem_map.mpr ⟨s, h1, rfl⟩) hsv
    · exact h1
  have hsorted : (c1.mergeSort byTimestamp).Pairwise (fun a b => byTimestamp a b) :=
    List.sorted_mergeSort byTimestamp_trans byTimestamp_total c1
  have hsorted2 : ((c1.mergeSort byTimestamp).take 100
      ++ (c1.mergeSort byTimestamp).drop 100).Pairwise (fun a b => byTimestamp a b) := by
    rw [hsplitS]
    exact hsorted
  have hpw := (List.pairwise_append.mp hsorted2).2.2
  have := hpw q hqtake s hsdrop
  simpa [byTimestamp] using this

/-- Unfolding of save_to_cache on a readable cache file. -/
theorem save_to_cache_eq (c : Cache) (prompt response : String) (now : ℚ) :
    save_to_cache (some c) prompt response now
      = (if (dictInsert c (md5_hex prompt) ⟨now, response⟩).length > 2000 then
          pop_keys (dictInsert c (md5_hex prompt) ⟨now, response⟩)
            ((((dictInsert c (md5_hex prompt) ⟨now, response⟩).mergeSort byTimestamp).map
              Prod.fst).take 100)
        else dictInsert c (md5_hex prompt) ⟨now, response⟩) := rfl

/-- After an insertion that pushes the store above 2000 entries, the
persisted store holds exactly 100 entries fewer. -/
theorem save_len_eviction (c : Cache) (prompt response : String) (now : ℚ)
    (hnodup : (cacheKeys c).Nodup)
    (hbig : (dictInsert c (md5_hex prompt) ⟨now, response⟩).length > 2000) :
    (save_to_cache (some c) prompt response now).length
      = (dictInsert c (md5_hex prompt) ⟨now, response⟩).length - 100 := by
  have hn1 : (cacheKeys (dictInsert c (md5_hex prompt) ⟨now, response⟩)).Nodup :=
    dictInsert_keys_nodup c _ _ hnodup
  have hkperm : List.Perm
      (((dictInsert c (md5_hex prompt) ⟨now, response⟩).mergeSort byTimestamp).map Prod.fst)
      (cacheKeys (dictInsert c (md5_hex prompt) ⟨now, response⟩)) :=
    (List.mergeSort_perm _ byTimestamp).map Prod.fst
  have hknodup : (((((dictInsert c (md5_hex prompt) ⟨now, response⟩).mergeSort
        byTimestamp).map Prod.fst)).take 100).Nodup :=
    (List.take_sublist _ _).nodup (hkperm.nodup_iff.mpr hn1)
  have hksub : ∀ k ∈ ((((dictInsert c (md5_hex prompt) ⟨now, response⟩).mergeSort
        byTimestamp).map Prod.fst)).take 100,
      k ∈ cacheKeys (dictInsert c (md5_hex prompt) ⟨now, response⟩) :=
    fun k hk => hkperm.mem_iff.mp ((List.take_sublist _ _).subset hk)
  have hkslen : (((((dictInsert c (md5_hex prompt) ⟨now, response⟩).mergeSort
        byTimestamp).map Prod.fst)).take 100).length = 100 := by
    rw [List.length_take, List.length_map, List.length_mergeSort]
    omega
  rw [save_to_cache_eq, if_pos hbig]
  rw [pop_keys_eq_filter _ _ hn1]
  rw [length_filter_not_contains _ _ hknodup hn1 hksub, hkslen]

/-- After an eviction, every surviving entry is at least as young as
every evicted entry. -/
theorem save_oldest_eviction (c : Cache) (prompt response : String) (now : ℚ)
    (hnodup : (cacheKeys c).Nodup)
    (hbig : (dictInsert c (md5_hex prompt) ⟨now, response⟩).length > 2000) :
    ∀ q ∈ dictInsert c (md5_hex prompt) ⟨now, response⟩,
      q ∉ save_to_cache (some c) prompt response now →
      ∀ s ∈ save_to_cache (some c) prompt response now,
        q.2.timestamp ≤ s.2.timestamp := by
  have hn1 : (cacheKeys (dictInsert c (md5_hex prompt) ⟨now, response⟩)).Nodup :=
    dictInsert_keys_nodup c _ _ hnodup
  intro q hq hqnot s hs
  rw [save_to_cache_eq, if_pos hbig, pop_keys_eq_filter _ _ hn1] at hqnot hs
  rw [List.mem_filter] at hs
  obtain ⟨hsmem, hscon⟩ := hs
  have hsk : s.1 ∉ ((((dictInsert c (md5_hex prompt) ⟨now, response⟩).mergeSort
      byTimestamp).map Prod.fst)).take 100 := by
    intro hmem
    rw [Bool.not_eq_true'] at hscon
    rw [(contains_iff_mem _ _).mpr hmem] at hscon
    exact Bool.noConfusion hscon
  have hqk : q.1 ∈ ((((dictInsert c (md5_hex prompt) ⟨now, response⟩).mergeSort
      byTimestamp).map Prod.fst)).take 100 := by
    by_contra hqk
    apply hqnot
    rw [List.mem_filter]
    refine ⟨hq, ?_⟩
    rw [Bool.not_eq_true']
    cases hcon : (((((dictInsert c (md5_hex prompt) ⟨now, response⟩).mergeSort
        byTimestamp).map Prod.fst)).take 100).contains q.1 with
    | false => rfl
    | true => exact absurd ((contains_iff_mem _ _).mp hcon) hqk
  exact mergeSort_take_oldest _ hn1 q s hq hqk hsmem hsk

set_option maxHeartbeats 800000 in
/-- Claim C5 (amended): writing an entry that leaves the store at or
below 2000 entries persists it unchanged; an insertion that pushes the
store above 2000 entries evicts exactly the 100 entries with the oldest
timestamps before persisting, leaving size minus 100 entries — at most
1901, not 1900, since sequentially the store reaches at most 2001
entries before an eviction. -/
theorem c5_amended_eviction (c : Cache) (prompt response : String) (now : ℚ)
    (hnodup : (cacheKeys c).Nodup) (hlen : c.length ≤ 2000) :
    ((dictInsert c (md5_hex prompt) ⟨now, response⟩).length ≤ 2000 →
      save_to_cache (some c) prompt response now
        = dictInsert c (md5_hex prompt) ⟨now, response⟩) ∧
    ((dictInsert c (md5_hex prompt) ⟨now, response⟩).length > 2000 →
      (save_to_cache (some c) prompt response now).length
          = (dictInsert c (md5_hex prompt) ⟨now, response⟩).length - 100 ∧
        (save_to_cache (some c) prompt response now).length ≤ 1901 ∧
        (∀ q ∈ dictInsert c (md5_hex prompt) ⟨now, response⟩,
          q ∉ save_to_cache (some c) prompt response now →
          ∀ s ∈ save_to_cache (some c) prompt response now,
            q.2.timestamp ≤ s.2.timestamp)) := by
  constructor
  · intro hsmall
    rw [save_to_cache_eq, if_neg (by omega)]
  · intro hbig
    refine ⟨save_len_eviction c prompt response now hnodup hbig, ?_,
      save_oldest_eviction c prompt response now hnodup hbig⟩
    rw [save_len_eviction c prompt response now hnodup hbig]
    have hins : (dictInsert c (md5_hex prompt) ⟨now, response⟩).length ≤ c.length + 1 := by
      rw [dictInsert_length]
      split <;> omega
    omega

/-- The synthetic cache key function is injective. -/
theorem c5_key_injective : Function.Injective c5_key := by
  intro a b h
  have h3 : List.replicate a 'a' = List.replicate b 'a' := congrArg String.data h
  have h4 := congrArg List.length h3
  simpa using h4

theorem c5_nodup : (cacheKeys c5_cache).Nodup := by
  rw [c5_cache, cacheKeys, List.map_map]
  exact List.Nodup.map c5_key_injective (List.nodup_range 2000)

theorem c5_new_key_absent : List.lookup "b" c5_cache = none := by
  have h : "b" ∉ cacheKeys c5_cache := by
    rw [c5_cache, cacheKeys, List.map_map]
    intro hmem
    obtain ⟨j, _, hkey⟩ := List.mem_map.mp hmem
    have hkey2 : c5_key j = "b" := hkey
    have hdata : List.replicate j 'a' = "b".data := congrArg String.data hkey2
    rw [show ("b".data) = ['b'] from rfl] at hdata
    cases j with
    | zero => exact absurd hdata (by decide)
    | succ n =>
      rw [List.replicate_succ] at hdata
      injection hdata with h1 h2
      exact absurd h1 (by decide)
  cases hh : List.lookup "b" c5_cache with
  | none => rfl
  | some v => exact absurd ((lookup_isSome_iff "b" c5_cache).mp (by rw [hh]; rfl)) h

theorem c5_cache_length : c5_cache.length = 2000 := by
  simp [c5_cache]

/-- Claim C5, counterexample: inserting a fresh entry into a 2000-entry
store triggers the eviction at 2001 entries and persists 1901 entries,
not at most 1900 as the claim states. -/
theorem c5_counterexample :
    (save_to_cache (some c5_cache) "b" "r" 5).length = 1901 ∧ ¬ (1901 ≤ 1900) := by
  have hins : (dictInsert c5_cache (md5_hex "b") ⟨5, "r"⟩).length = 2001 := by
    rw [dictInsert_length]
    rw [show md5_hex "b" = "b" from rfl, c5_new_key_absent]
    simp [c5_cache_length]
  constructor
  · rw [save_len_eviction c5_cache "b" "r" 5 c5_nodup (by rw [hins]; omega), hins]
  · omega

theorem c5_witness :
    save_to_cache (some ([] : Cache)) "p" "r" 5
      = dictInsert [] (md5_hex "p") ⟨5, "r"⟩ :=
  (c5_amended_eviction [] "p" "r" 5 (by simp [cacheKeys]) (by simp)).1 (by decide)

end GeminiUtils
